import Mathlib

/-!
Shallow embedding of the webhook-service repository (FastAPI + SQLite).

The SQLite `messages` table is modelled as a `List Row` in insertion order.
String comparison on `ts` uses Lean's lexicographic order on strings
(codepoint order), which agrees with SQLite's BINARY collation on UTF-8
encoded text because UTF-8 preserves codepoint order.
-/

namespace WebhookService

/-- A stored row of the `messages` table (src/app/storage.py, `_init_db`):
columns `message_id` (primary key), `from_msisdn`, `to_msisdn`, `ts`,
`text` (nullable), `created_at`. -/
structure Row where
  message_id : String
  from_msisdn : String
  to_msisdn : String
  ts : String
  text : Option String
  created_at : String
deriving DecidableEq, Repr

/-- `Database.insert_message` (src/app/storage.py lines 60-92): an
`INSERT OR IGNORE` keyed on the primary key `message_id`.  If a row with
the same `message_id` exists the statement is a no-op (`rowcount = 0`) and
the method returns `(True, True)`; otherwise the new row is stored and it
returns `(True, False)`.  `created_at` is computed by the caller
(`datetime.now`), so it is a parameter here.  Result: (new store, success,
is_duplicate). -/
def insert_message (store : List Row) (message_id from_msisdn to_msisdn ts : String)
    (text : Option String) (created_at : String) : List Row × Bool × Bool :=
  if store.any (fun r => r.message_id == message_id) then
    (store, true, true)
  else
    (store ++ [⟨message_id, from_msisdn, to_msisdn, ts, text, created_at⟩], true, false)

/-- C1: insert is idempotent by `message_id`: when some stored row already
has key `m`, a later `insert_message` with the same `m` (any other field
values) returns success with `is_duplicate = true` and leaves the store —
hence the stored row for `m`, all fields including `text` and the original
`created_at` — completely unchanged. -/
theorem insert_message_idempotent (store : List Row)
    (m f t ts : String) (tx : Option String) (c : String)
    (h : ∃ r ∈ store, r.message_id = m) :
    insert_message store m f t ts tx c = (store, true, true) := by
  have hany : store.any (fun r => r.message_id == m) = true := by
    rcases h with ⟨r, hr, he⟩
    exact List.any_eq_true.mpr ⟨r, hr, by simp [he]⟩
  simp [insert_message, hany]

/-- Witness for C1 at a concrete store: re-inserting key "m1" with
different field values changes nothing and reports a duplicate. -/
theorem insert_message_idempotent_witness :
    insert_message [⟨"m1", "+1", "+2", "2024-01-01T00:00:00Z", some "a", "c1"⟩]
      "m1" "+9" "+8" "2025-02-02T11:11:11Z" none "c2"
      = ([⟨"m1", "+1", "+2", "2024-01-01T00:00:00Z", some "a", "c1"⟩], true, true) :=
  insert_message_idempotent _ "m1" _ _ _ _ _
    ⟨⟨"m1", "+1", "+2", "2024-01-01T00:00:00Z", some "a", "c1"⟩, by simp, rfl⟩

/-- SQLite's `LIKE` operator (used by `Database.get_messages` for the `q`
filter, src/app/storage.py lines 120-122): `%` matches any sequence of
characters, `_` matches exactly one character, and ordinary characters
compare ASCII-case-insensitively (SQLite's default `like()` folds only
A-Z/a-z, which coincides with Lean's ASCII-only `Char.toLower`). -/
def likeMatch : (p s : List Char) → Bool
  | [], s => s.isEmpty
  | c :: p', s =>
    if c = '%' then (s.tails).any (fun t => likeMatch p' t)
    else
      match s with
      | [] => false
      | d :: s' =>
        if c = '_' then likeMatch p' s'
        else (c.toLower == d.toLower) && likeMatch p' s'

/-- `segAt q s`: `q` is a leading segment of `s` (plain character
equality). Spec-side helper for the substring reading of the `q` filter. -/
def segAt : (q s : List Char) → Bool
  | [], _ => true
  | _ :: _, [] => false
  | c :: q', d :: s' => (c == d) && segAt q' s'

/-- `containsSeg q s`: `q` occurs as a contiguous segment of `s`. -/
def containsSeg : (q s : List Char) → Bool
  | q, [] => segAt q []
  | q, d :: s' => segAt q (d :: s') || containsSeg q s'

/-- ASCII-lowercase every character (Lean's `Char.toLower` folds A-Z only,
exactly like SQLite's default `LIKE`). -/
def lowerAll (cs : List Char) : List Char := cs.map Char.toLower

/-- Spec-side predicate: `q` occurs in `t` as a contiguous substring,
compared ASCII-case-insensitively. -/
def substringCI (q t : String) : Bool := containsSeg (lowerAll q.data) (lowerAll t.data)

/-- `cs` contains no SQL LIKE wildcard (`%` or `_`). -/
def noWild (cs : List Char) : Bool := cs.all (fun c => !(c == '%' || c == '_'))

/-- Python/SQL truthiness of an optional query parameter: `if from_filter:`
adds the WHERE clause only when the value is present and non-empty
(src/app/storage.py lines 108-118). -/
def present : Option String → Bool
  | none => false
  | some s => !(s == "")

/-- The `from_msisdn = ?` WHERE clause of `Database.get_messages`, guarded
by Python truthiness of `from_filter`. -/
def matchFrom : Option String → Row → Bool
  | none, _ => true
  | some f, r => if f == "" then true else r.from_msisdn == f

/-- The `ts >= ?` WHERE clause (lexicographic, SQLite BINARY collation),
guarded by Python truthiness of `since_filter`. -/
def matchSince : Option String → Row → Bool
  | none, _ => true
  | some s, r => if s == "" then true else decide (s ≤ r.ts)

/-- The `text LIKE '%' || q || '%'` WHERE clause, guarded by Python
truthiness of `q_filter`; a NULL `text` never satisfies `LIKE` in SQL. -/
def matchQ : Option String → Row → Bool
  | none, _ => true
  | some q, r =>
    if q == "" then true
    else
      match r.text with
      | none => false
      | some t => likeMatch ('%' :: (q.data ++ ['%'])) t.data

/-- Conjunction of the WHERE clauses of `Database.get_messages`
(src/app/storage.py lines 105-126). -/
def rowMatches (f s q : Option String) (r : Row) : Bool :=
  matchFrom f r && matchSince s r && matchQ q r

/-- The `ORDER BY ts ASC, message_id ASC` total preorder on rows. -/
def rowLe (a b : Row) : Prop :=
  a.ts < b.ts ∨ (a.ts = b.ts ∧ a.message_id ≤ b.message_id)

instance : DecidableRel rowLe := fun a b =>
  decidable_of_iff (a.ts < b.ts ∨ (a.ts = b.ts ∧ a.message_id ≤ b.message_id)) Iff.rfl

instance : IsTotal Row rowLe :=
  ⟨fun a b => by
    rcases lt_trichotomy a.ts b.ts with h | h | h
    · exact Or.inl (Or.inl h)
    · rcases le_total a.message_id b.message_id with hm | hm
      · exact Or.inl (Or.inr ⟨h, hm⟩)
      · exact Or.inr (Or.inr ⟨h.symm, hm⟩)
    · exact Or.inr (Or.inl h)⟩

instance : IsTrans Row rowLe :=
  ⟨fun a b c hab hbc => by
    rcases hab with h1 | ⟨e1, m1⟩
    · rcases hbc with h2 | ⟨e2, _⟩
      · exact Or.inl (h1.trans h2)
      · exact Or.inl (e2 ▸ h1)
    · rcases hbc with h2 | ⟨e2, m2⟩
      · exact Or.inl (e1 ▸ h2)
      · exact Or.inr ⟨e1.trans e2, m1.trans m2⟩⟩

/-- `Database.get_messages` (src/app/storage.py lines 94-143): one COUNT
query over the WHERE clauses (ignoring LIMIT/OFFSET), and one data query
over the same WHERE clauses with `ORDER BY ts ASC, message_id ASC
LIMIT ? OFFSET ?`.  Returns (page, total). -/
def get_messages (store : List Row) (limit offset : Nat)
    (from_filter since_filter q_filter : Option String) : List Row × Nat :=
  let filtered := store.filter (rowMatches from_filter since_filter q_filter)
  (((List.insertionSort rowLe filtered).drop offset).take limit, filtered.length)

lemma likeMatch_star (p' s : List Char) :
    likeMatch ('%' :: p') s = (s.tails).any (fun t => likeMatch p' t) := by
  simp [likeMatch]

lemma likeMatch_lit_nil (c : Char) (p' : List Char) (h1 : ¬(c = '%')) :
    likeMatch (c :: p') [] = false := by
  simp [likeMatch, h1]

lemma likeMatch_lit (c : Char) (p' : List Char) (d : Char) (s' : List Char)
    (h1 : ¬(c = '%')) (h2 : ¬(c = '_')) :
    likeMatch (c :: p') (d :: s') = ((c.toLower == d.toLower) && likeMatch p' s') := by
  simp [likeMatch, h1, h2]

lemma likeMatch_pct_nil (s : List Char) : likeMatch ['%'] s = true := by
  induction s with
  | nil => rfl
  | cons d s' ih =>
    rw [likeMatch_star] at ih ⊢
    simpa [List.tails_cons] using Or.inr ih

lemma likeMatch_append_pct (q : List Char) (hq : noWild q = true) (s : List Char) :
    likeMatch (q ++ ['%']) s = segAt (lowerAll q) (lowerAll s) := by
  induction q generalizing s with
  | nil => simp [likeMatch_pct_nil, segAt, lowerAll]
  | cons c q' ih =>
    have hq' : noWild q' = true := by
      simp [noWild] at hq ⊢; exact fun c hc => (hq.2 c hc)
    have hc1 : ¬(c = '%') := by simp [noWild] at hq; exact hq.1.1
    have hc2 : ¬(c = '_') := by simp [noWild] at hq; exact hq.1.2
    cases s with
    | nil =>
      rw [List.cons_append, likeMatch_lit_nil c _ hc1]
      simp [segAt, lowerAll]
    | cons d s' =>
      rw [List.cons_append, likeMatch_lit c _ d s' hc1 hc2]
      simp [segAt, lowerAll, ih hq']

lemma likeMatch_pct_wrap (q : List Char) (hq : noWild q = true) (s : List Char) :
    likeMatch ('%' :: (q ++ ['%'])) s = containsSeg (lowerAll q) (lowerAll s) := by
  induction s with
  | nil =>
    rw [likeMatch_star]
    simpa [containsSeg, lowerAll] using likeMatch_append_pct q hq []
  | cons d s' ih =>
    rw [likeMatch_star] at ih ⊢
    rw [List.tails_cons, List.any_cons]
    rw [likeMatch_append_pct q hq (d :: s'), ih]
    simp [containsSeg, lowerAll]

lemma segAt_iff (q s : List Char) : segAt q s = true ↔ ∃ b, s = q ++ b := by
  induction q generalizing s with
  | nil => simp [segAt]
  | cons c q' ih =>
    cases s with
    | nil => simp [segAt]
    | cons d s' =>
      simp only [segAt, Bool.and_eq_true, beq_iff_eq, ih, List.cons_append,
        List.cons.injEq]
      constructor
      · rintro ⟨hc, b, hb⟩; exact ⟨b, hc.symm, hb⟩
      · rintro ⟨b, hc, hb⟩; exact ⟨hc.symm, b, hb⟩

lemma containsSeg_iff (q s : List Char) :
    containsSeg q s = true ↔ ∃ a b, s = a ++ q ++ b := by
  induction s with
  | nil =>
    simp only [containsSeg, segAt_iff]
    constructor
    · rintro ⟨b, hb⟩; exact ⟨[], b, by simpa using hb⟩
    · rintro ⟨a, b, hab⟩
      rcases List.append_eq_nil.mp ((List.append_assoc a q b ▸ hab).symm) with ⟨h1, h2⟩
      rcases List.append_eq_nil.mp h2 with ⟨h3, h4⟩
      exact ⟨b, by simp [h3, h4]⟩
  | cons d s' ih =>
    simp only [containsSeg, Bool.or_eq_true, segAt_iff, ih]
    constructor
    · rintro (⟨b, hb⟩ | ⟨a, b, hab⟩)
      · exact ⟨[], b, by simp [hb]⟩
      · exact ⟨d :: a, b, by simp [hab]⟩
    · rintro ⟨a, b, hab⟩
      cases a with
      | nil => exact Or.inl ⟨b, by simpa using hab⟩
      | cons x a' =>
        have hx : d = x ∧ s' = a' ++ q ++ b := by simpa using hab
        exact Or.inr ⟨a', b, hx.2⟩

lemma matchQ_some_iff (q : String) (hq : ¬(q = "")) (hw : noWild q.data = true)
    (r : Row) :
    matchQ (some q) r = true ↔ ∃ t, r.text = some t ∧ substringCI q t = true := by
  have hqb : (q == "") = false := by simpa using hq
  cases hr : r.text with
  | none => simp [matchQ, hqb, hr]
  | some t => simp [matchQ, hqb, hr, likeMatch_pct_wrap q.data hw, substringCI]

/-- C10: empty-string filters are treated as absent: `get_messages` with
`from_filter`, `since_filter` or `q_filter` equal to `""` coincides with
the call where that filter is omitted (Python truthiness guards the WHERE
clauses). In particular `from_filter=""` does not restrict to rows whose
sender is `""`, and `q_filter=""` does not exclude rows with NULL text. -/
theorem get_messages_empty_filters (store : List Row) (limit offset : Nat)
    (f s q : Option String) :
    get_messages store limit offset (some "") s q
        = get_messages store limit offset none s q
    ∧ get_messages store limit offset f (some "") q
        = get_messages store limit offset f none q
    ∧ get_messages store limit offset f s (some "")
        = get_messages store limit offset f s none := by
  refine ⟨?_, ?_, ?_⟩
  · have h : rowMatches (some "") s q = rowMatches none s q := by
      funext r; simp [rowMatches, matchFrom]
    simp only [get_messages, h]
  · have h : rowMatches f (some "") q = rowMatches f none q := by
      funext r; simp [rowMatches, matchSince]
    simp only [get_messages, h]
  · have h : rowMatches f s (some "") = rowMatches f s none := by
      funext r; simp [rowMatches, matchQ]
    simp only [get_messages, h]

/-- A concrete row used in witnesses for the query claims. -/
def rowA : Row :=
  ⟨"m1", "+1", "+9", "2024-01-15T08:00:00Z", some "Hello World", "c1"⟩

/-- C6 counterexample: `q_filter` is interpolated into a SQL `LIKE`
pattern, so `_` (and `%`) act as wildcards rather than literal characters:
with a stored row whose text is "aXb", the query `q = "a_b"` returns the
row although "a_b" is not a (case-insensitive) substring of "aXb". -/
theorem get_messages_q_wildcard_counterexample :
    (get_messages [⟨"m1", "+1", "+2", "2024-01-01T00:00:00Z", some "aXb", "c"⟩]
        50 0 none none (some "a_b")).1
      = [⟨"m1", "+1", "+2", "2024-01-01T00:00:00Z", some "aXb", "c"⟩]
    ∧ substringCI "a_b" "aXb" = false := by decide

/-- C6 (amended): `get_messages` returns the contiguous slice at positions
`offset..offset+limit-1` of the filtered rows sorted by
(`ts` ASC, `message_id` ASC), and `total` counts all filtered rows
regardless of `limit`/`offset`; the filters are conjunctive, `from_filter`
is an exact match on the sender, `since_filter` is an inclusive
lexicographic lower bound on `ts`, and `q_filter` — being spliced into a
`LIKE '%q%'` pattern — is, for `q` containing no `%`/`_` wildcard, an
ASCII-case-insensitive contiguous-substring match on `text`. -/
theorem get_messages_spec (store : List Row) (limit offset : Nat)
    (f s q : Option String) :
    (get_messages store limit offset f s q).2
        = (store.filter (rowMatches f s q)).length
    ∧ (get_messages store limit offset f s q).1
        = ((List.insertionSort rowLe (store.filter (rowMatches f s q))).drop
            offset).take limit
    ∧ List.Sorted rowLe (List.insertionSort rowLe (store.filter (rowMatches f s q)))
    ∧ (List.insertionSort rowLe (store.filter (rowMatches f s q))).Perm
        (store.filter (rowMatches f s q))
    ∧ (∀ r, rowMatches f s q r = (matchFrom f r && matchSince s r && matchQ q r))
    ∧ (∀ f' r, ¬(f' = "") → (matchFrom (some f') r = true ↔ r.from_msisdn = f'))
    ∧ (∀ s' r, ¬(s' = "") → (matchSince (some s') r = true ↔ s' ≤ r.ts))
    ∧ (∀ q' r, ¬(q' = "") → noWild q'.data = true →
        (matchQ (some q') r = true ↔ ∃ t, r.text = some t ∧ substringCI q' t = true))
    ∧ (∀ q' t, substringCI q' t = true ↔
        ∃ a b, lowerAll t.data = a ++ lowerAll q'.data ++ b) := by
  refine ⟨rfl, rfl, List.sorted_insertionSort rowLe _, List.perm_insertionSort rowLe _,
    fun r => rfl, ?_, ?_, ?_, ?_⟩
  · intro f' r hf
    have hfb : (f' == "") = false := by simpa using hf
    simp [matchFrom, hfb]
  · intro s' r hs
    have hsb : (s' == "") = false := by simpa using hs
    simp [matchSince, hsb]
  · exact fun q' r hq hw => matchQ_some_iff q' hq hw r
  · intro q' t
    exact containsSeg_iff (lowerAll q'.data) (lowerAll t.data)

/-- Witness for C6 at concrete inputs: the filter characterizations applied
to `rowA` with non-empty filter values, hypotheses discharged by `decide`. -/
theorem get_messages_spec_witness :
    (get_messages [rowA] 50 0 (some "+1") none none).2
        = ([rowA].filter (rowMatches (some "+1") none none)).length
    ∧ (matchFrom (some "+1") rowA = true ↔ rowA.from_msisdn = "+1")
    ∧ (matchSince (some "2024") rowA = true ↔ "2024" ≤ rowA.ts)
    ∧ (matchQ (some "lo wo") rowA = true ↔
        ∃ t, rowA.text = some t ∧ substringCI "lo wo" t = true) := by
  have h := get_messages_spec [rowA] 50 0 (some "+1") none none
  obtain ⟨h1, _, _, _, _, h6, h7, h8, _⟩ := h
  exact ⟨h1, h6 "+1" rowA (by decide), h7 "2024" rowA (by decide),
    h8 "lo wo" rowA (by decide) (by decide)⟩

/-- The `GROUP BY from_msisdn` aggregation of `Database.get_stats`
(src/app/storage.py lines 153-166): one `(sender, count)` pair per
distinct sender. -/
def senderCounts (store : List Row) : List (String × Nat) :=
  ((store.map (fun r => r.from_msisdn)).dedup).map
    (fun s => (s, store.countP (fun r => r.from_msisdn == s)))

/-- The `ORDER BY count DESC` total preorder on `(sender, count)` pairs. -/
def byCountDesc (a b : String × Nat) : Prop := b.2 ≤ a.2

instance : DecidableRel byCountDesc := fun a b => decidable_of_iff (b.2 ≤ a.2) Iff.rfl

instance : IsTotal (String × Nat) byCountDesc := ⟨fun a b => le_total b.2 a.2⟩

instance : IsTrans (String × Nat) byCountDesc := ⟨fun _ _ _ hab hbc => hbc.trans hab⟩

/-- Result shape of `Database.get_stats` (src/app/storage.py lines 145-181). -/
structure Stats where
  total_messages : Nat
  senders_count : Nat
  messages_per_sender : List (String × Nat)
  first_message_ts : Option String
  last_message_ts : Option String
deriving DecidableEq, Repr

/-- SQL `MIN(ts)` over all rows: `NULL` (`none`) on an empty table. -/
def minTs (store : List Row) : Option String :=
  match store.map (fun r => r.ts) with
  | [] => none
  | x :: xs => some (xs.foldl min x)

/-- SQL `MAX(ts)` over all rows: `NULL` (`none`) on an empty table. -/
def maxTs (store : List Row) : Option String :=
  match store.map (fun r => r.ts) with
  | [] => none
  | x :: xs => some (xs.foldl max x)

/-- `Database.get_stats` (src/app/storage.py lines 145-181): total row
count, number of distinct senders (`COUNT(DISTINCT from_msisdn)`), top 10
senders by message count descending, and `MIN(ts)`/`MAX(ts)`. -/
def get_stats (store : List Row) : Stats :=
  { total_messages := store.length
    senders_count := (store.map (fun r => r.from_msisdn)).dedup.length
    messages_per_sender := (List.insertionSort byCountDesc (senderCounts store)).take 10
    first_message_ts := minTs store
    last_message_ts := maxTs store }

lemma foldl_min_mem {α : Type} [LinearOrder α] (x : α) (xs : List α) :
    xs.foldl min x ∈ x :: xs := by
  induction xs generalizing x with
  | nil => simp
  | cons y ys ih =>
    rw [List.foldl_cons]
    rcases List.mem_cons.mp (ih (min x y)) with h1 | h1
    · rw [h1]
      rcases min_choice x y with hm | hm
      · rw [hm]; exact List.mem_cons_self _ _
      · rw [hm]; exact List.mem_cons_of_mem _ (List.mem_cons_self _ _)
    · exact List.mem_cons_of_mem _ (List.mem_cons_of_mem _ h1)

lemma foldl_min_le {α : Type} [LinearOrder α] (xs : List α) :
    ∀ (x : α), ∀ y ∈ x :: xs, xs.foldl min x ≤ y := by
  induction xs with
  | nil => intro x y hy; simp at hy; simp [hy]
  | cons z zs ih =>
    intro x y hy
    rw [List.foldl_cons]
    rcases List.mem_cons.mp hy with h1 | h1
    · rw [h1]
      exact le_trans (ih (min x z) (min x z) (List.mem_cons_self _ _)) (min_le_left _ _)
    · rcases List.mem_cons.mp h1 with h2 | h2
      · rw [h2]
        exact le_trans (ih (min x z) (min x z) (List.mem_cons_self _ _)) (min_le_right _ _)
      · exact ih (min x z) _ (List.mem_cons_of_mem _ h2)

lemma foldl_max_mem {α : Type} [LinearOrder α] (x : α) (xs : List α) :
    xs.foldl max x ∈ x :: xs := by
  induction xs generalizing x with
  | nil => simp
  | cons y ys ih =>
    rw [List.foldl_cons]
    rcases List.mem_cons.mp (ih (max x y)) with h1 | h1
    · rw [h1]
      rcases max_choice x y with hm | hm
      · rw [hm]; exact List.mem_cons_self _ _
      · rw [hm]; exact List.mem_cons_of_mem _ (List.mem_cons_self _ _)
    · exact List.mem_cons_of_mem _ (List.mem_cons_of_mem _ h1)

lemma le_foldl_max {α : Type} [LinearOrder α] (xs : List α) :
    ∀ (x : α), ∀ y ∈ x :: xs, y ≤ xs.foldl max x := by
  induction xs with
  | nil => intro x y hy; simp at hy; simp [hy]
  | cons z zs ih =>
    intro x y hy
    rw [List.foldl_cons]
    rcases List.mem_cons.mp hy with h1 | h1
    · rw [h1]
      exact le_trans (le_max_left _ _) (ih (max x z) (max x z) (List.mem_cons_self _ _))
    · rcases List.mem_cons.mp h1 with h2 | h2
      · rw [h2]
        exact le_trans (le_max_right _ _) (ih (max x z) (max x z) (List.mem_cons_self _ _))
      · exact ih (max x z) _ (List.mem_cons_of_mem _ h2)

/-- C7: `get_stats` reports the row count; `senders_count` is the number of
distinct senders; `messages_per_sender` has at most 10 entries and is
sorted by count descending; on an empty store the counts are zero and the
min/max timestamps are absent; on a non-empty store `first_message_ts` is
the lexicographic minimum and `last_message_ts` the lexicographic maximum
of the stored `ts` values, so `first_message_ts ≤ last_message_ts`. -/
theorem get_stats_spec (store : List Row) :
    (get_stats store).total_messages = store.length
    ∧ (get_stats store).senders_count
        = (store.map (fun r => r.from_msisdn)).dedup.length
    ∧ (get_stats store).messages_per_sender.length ≤ 10
    ∧ List.Sorted byCountDesc (get_stats store).messages_per_sender
    ∧ (store = [] → (get_stats store).total_messages = 0
        ∧ (get_stats store).senders_count = 0
        ∧ (get_stats store).first_message_ts = none
        ∧ (get_stats store).last_message_ts = none)
    ∧ (store ≠ [] → ∃ f l, (get_stats store).first_message_ts = some f
        ∧ (get_stats store).last_message_ts = some l
        ∧ (∃ r ∈ store, r.ts = f) ∧ (∃ r ∈ store, r.ts = l)
        ∧ (∀ r ∈ store, f ≤ r.ts ∧ r.ts ≤ l) ∧ f ≤ l) := by
  refine ⟨rfl, rfl, ?_, ?_, ?_, ?_⟩
  · simp [get_stats, List.length_take]
  · exact List.Pairwise.sublist (List.take_sublist 10 _)
      (List.sorted_insertionSort byCountDesc (senderCounts store))
  · intro h; subst h; exact ⟨rfl, rfl, rfl, rfl⟩
  · intro h
    cases store with
    | nil => exact absurd rfl h
    | cons r rest =>
      refine ⟨(rest.map (fun rr : Row => rr.ts)).foldl min r.ts,
        (rest.map (fun rr : Row => rr.ts)).foldl max r.ts, rfl, rfl, ?_, ?_, ?_, ?_⟩
      · have hmem : (rest.map (fun r => r.ts)).foldl min r.ts
            ∈ (r :: rest).map (fun r => r.ts) := by
          simpa using foldl_min_mem r.ts (rest.map (fun r => r.ts))
        rcases List.mem_map.mp hmem with ⟨rr, hrr, he⟩
        exact ⟨rr, hrr, he⟩
      · have hmem : (rest.map (fun r => r.ts)).foldl max r.ts
            ∈ (r :: rest).map (fun r => r.ts) := by
          simpa using foldl_max_mem r.ts (rest.map (fun r => r.ts))
        rcases List.mem_map.mp hmem with ⟨rr, hrr, he⟩
        exact ⟨rr, hrr, he⟩
      · intro rr hrr
        have hmem : rr.ts ∈ r.ts :: rest.map (fun r => r.ts) := by
          simpa using List.mem_map_of_mem (fun r => r.ts) hrr
        exact ⟨foldl_min_le _ r.ts rr.ts hmem, le_foldl_max _ r.ts rr.ts hmem⟩
      · have hhead : r.ts ∈ r.ts :: rest.map (fun r => r.ts) :=
          List.mem_cons_self _ _
        exact le_trans (foldl_min_le _ r.ts r.ts hhead)
          (le_foldl_max _ r.ts r.ts hhead)

/-- Witness for C7 at a two-row concrete store: min/max timestamps exist,
bound the stored values, and the top-sender list is short and ordered. -/
theorem get_stats_spec_witness :
    (∃ f l, (get_stats [rowA,
        ⟨"m2", "+1", "+9", "2024-01-16T09:00:00Z", none, "c2"⟩]).first_message_ts
          = some f
      ∧ (get_stats [rowA,
          ⟨"m2", "+1", "+9", "2024-01-16T09:00:00Z", none, "c2"⟩]).last_message_ts
          = some l
      ∧ (∃ r ∈ [rowA, ⟨"m2", "+1", "+9", "2024-01-16T09:00:00Z", none, "c2"⟩],
          r.ts = f)
      ∧ (∃ r ∈ [rowA, ⟨"m2", "+1", "+9", "2024-01-16T09:00:00Z", none, "c2"⟩],
          r.ts = l)
      ∧ (∀ r ∈ [rowA, ⟨"m2", "+1", "+9", "2024-01-16T09:00:00Z", none, "c2"⟩],
          f ≤ r.ts ∧ r.ts ≤ l) ∧ f ≤ l)
    ∧ (get_stats [rowA,
        ⟨"m2", "+1", "+9", "2024-01-16T09:00:00Z", none, "c2"⟩]).messages_per_sender.length
        ≤ 10 := by
  have h := get_stats_spec [rowA, ⟨"m2", "+1", "+9", "2024-01-16T09:00:00Z", none, "c2"⟩]
  exact ⟨h.2.2.2.2.2 (by simp), h.2.2.1⟩

/-- A parsed JSON value.  The numeric payload is stored as an `Int` only
for concreteness: `WebhookPayload` validation (src/app/models.py) inspects
just the constructor of the fields it reads (a JSON number is never
accepted where a string is required by pydantic v2 in JSON mode), so the
numeric value itself is irrelevant to acceptance. -/
inductive Json where
  | null
  | bool (b : Bool)
  | num (n : Int)
  | str (s : String)
  | arr (elems : List Json)
  | obj (fields : List (String × Json))

/-- Key lookup in a JSON object.  Python's JSON parsing builds a `dict`
where a duplicated key keeps the LAST occurrence, so the lookup returns
the last binding of the key. -/
def jlookup : List (String × Json) → String → Option Json
  | [], _ => none
  | (k, v) :: rest, key =>
    match jlookup rest key with
    | some r => some r
    | none => if k = key then some v else none

/-- The codepoint ranges of Unicode general category Nd (decimal digits),
which is exactly what Python's `\d` matches in `str` regexes
(src/app/models.py uses `re.match` on `str` patterns). -/
def ndRanges : List (Nat × Nat) :=
  [(0x30, 0x39), (0x660, 0x669), (0x6F0, 0x6F9), (0x7C0, 0x7C9), (0x966, 0x96F),
   (0x9E6, 0x9EF), (0xA66, 0xA6F), (0xAE6, 0xAEF), (0xB66, 0xB6F), (0xBE6, 0xBEF),
   (0xC66, 0xC6F), (0xCE6, 0xCEF), (0xD66, 0xD6F), (0xDE6, 0xDEF), (0xE50, 0xE59),
   (0xED0, 0xED9), (0xF20, 0xF29), (0x1040, 0x1049), (0x1090, 0x1099),
   (0x17E0, 0x17E9), (0x1810, 0x1819), (0x1946, 0x194F), (0x19D0, 0x19D9),
   (0x1A80, 0x1A89), (0x1A90, 0x1A99), (0x1B50, 0x1B59), (0x1BB0, 0x1BB9),
   (0x1C40, 0x1C49), (0x1C50, 0x1C59), (0xA620, 0xA629), (0xA8D0, 0xA8D9),
   (0xA900, 0xA909), (0xA9D0, 0xA9D9), (0xA9F0, 0xA9F9), (0xAA50, 0xAA59),
   (0xABF0, 0xABF9), (0xFF10, 0xFF19), (0x104A0, 0x104A9), (0x10D30, 0x10D39),
   (0x11066, 0x1106F), (0x110F0, 0x110F9), (0x11136, 0x1113F), (0x111D0, 0x111D9),
   (0x112F0, 0x112F9), (0x11450, 0x11459), (0x114D0, 0x114D9), (0x11650, 0x11659),
   (0x116C0, 0x116C9), (0x11730, 0x11739), (0x118E0, 0x118E9), (0x11950, 0x11959),
   (0x11C50, 0x11C59), (0x11D50, 0x11D59), (0x11DA0, 0x11DA9), (0x16A60, 0x16A69),
   (0x16AC0, 0x16AC9), (0x16B50, 0x16B59), (0x1D7CE, 0x1D7FF), (0x1E140, 0x1E149),
   (0x1E2F0, 0x1E2F9), (0x1E950, 0x1E959), (0x1FBF0, 0x1FBF9)]

/-- Python's `\d` on a `str` pattern: any Unicode Nd digit. -/
def isPyDigit (c : Char) : Bool :=
  ndRanges.any (fun p => decide (p.1 ≤ c.toNat) && decide (c.toNat ≤ p.2))

/-- ASCII digit 0-9 (what the spec claims `\d` means). -/
def asciiDigit (c : Char) : Bool := decide ('0' ≤ c) && decide (c ≤ '9')

/-- Consume exactly `n` characters satisfying `dig` (regex `\d{n}`). -/
def eatDigits (dig : Char → Bool) : Nat → List Char → Option (List Char)
  | 0, cs => some cs
  | _ + 1, [] => none
  | n + 1, c :: cs => if dig c then eatDigits dig n cs else none

/-- Consume exactly the literal character `c`. -/
def eatChar (c : Char) : List Char → Option (List Char)
  | [] => none
  | d :: cs => if d = c then some cs else none

/-- Consume the optional fraction group `(\.\d+)?`: a dot followed by at
least one digit, greedily; otherwise consume nothing.  Greediness is safe
here because the following literal `Z` can never be a digit. -/
def eatFrac (dig : Char → Bool) (cs : List Char) : List Char :=
  match cs with
  | '.' :: rest => if (rest.takeWhile dig).isEmpty then cs else rest.dropWhile dig
  | _ => cs

/-- The body of the pattern `\d{4}-\d{2}-\d{2}T\d{2}:\d{2}:\d{2}(\.\d+)?Z`
matched against the whole list (hand-compiled regex from
`WebhookPayload.validate_iso8601`, src/app/models.py lines 26-31). -/
def tsCore (dig : Char → Bool) (cs : List Char) : Bool :=
  Option.isSome (do
    let cs ← eatDigits dig 4 cs
    let cs ← eatChar '-' cs
    let cs ← eatDigits dig 2 cs
    let cs ← eatChar '-' cs
    let cs ← eatDigits dig 2 cs
    let cs ← eatChar 'T' cs
    let cs ← eatDigits dig 2 cs
    let cs ← eatChar ':' cs
    let cs ← eatDigits dig 2 cs
    let cs ← eatChar ':' cs
    let cs ← eatDigits dig 2 cs
    let cs := eatFrac dig cs
    let cs ← eatChar 'Z' cs
    if cs.isEmpty then some () else none)

/-- The body of the pattern `\+\d+` matched against the whole list
(hand-compiled regex from `WebhookPayload.validate_e164`,
src/app/models.py lines 19-24). -/
def e164Core (dig : Char → Bool) (cs : List Char) : Bool :=
  match cs with
  | [] => false
  | c :: rest => (c == '+') && !rest.isEmpty && rest.all dig

/-- Python `re.match(r'^P$', v)` semantics: `^` anchors at the start and
`$` matches at the very end of the string OR just before one final
newline.  So the pattern body must match either all of `v` or all of `v`
minus a single trailing `'\n'`. -/
def pyFullMatch (core : List Char → Bool) (s : String) : Bool :=
  core s.data || ((s.data.getLast? == some '\n') && core s.data.dropLast)

/-- `re.match(r'^\+\d+$', v)` as executed by `WebhookPayload.validate_e164`. -/
def pyE164 (s : String) : Bool := pyFullMatch (e164Core isPyDigit) s

/-- `re.match(r'^\d{4}-\d{2}-\d{2}T\d{2}:\d{2}:\d{2}(\.\d+)?Z$', v)` as
executed by `WebhookPayload.validate_iso8601`. -/
def pyTs (s : String) : Bool := pyFullMatch (tsCore isPyDigit) s

/-- A validated `WebhookPayload` (src/app/models.py lines 9-31). -/
structure Payload where
  message_id : String
  from_ : String
  «to» : String
  ts : String
  text : Option String
deriving DecidableEq, Repr

/-- `WebhookPayload.model_validate_json` applied to an already-parsed JSON
value (src/app/models.py lines 9-31): the body must be a JSON object;
`message_id` a string with `min_length=1`; `from` (field alias) and `to`
strings passing `validate_e164`; `ts` a string passing `validate_iso8601`;
`text` absent, `null`, or a string of length ≤ 4096 (pydantic's
`max_length`).  Extra keys are ignored (pydantic default).  Returns the
payload on success, `none` where pydantic raises `ValidationError`. -/
def parsePayload (j : Json) : Option Payload :=
  match j with
  | .obj fields =>
    match jlookup fields "message_id", jlookup fields "from",
          jlookup fields "to", jlookup fields "ts" with
    | some (.str mid), some (.str fr), some (.str tov), some (.str ts) =>
      if decide (1 ≤ mid.length) && pyE164 fr && pyE164 tov && pyTs ts then
        match jlookup fields "text" with
        | none => some ⟨mid, fr, tov, ts, none⟩
        | some .null => some ⟨mid, fr, tov, ts, none⟩
        | some (.str t) => if decide (t.length ≤ 4096) then some ⟨mid, fr, tov, ts, some t⟩ else none
        | some _ => none
      else none
    | _, _, _, _ => none
  | _ => none

/-- The claim's reading of the validator, stated verbatim for comparison:
exact full-string anchoring (no trailing newline tolerated) and digits
meaning ASCII 0-9 only.  This is the spec-side definition; the code-side
definition is `parsePayload`. -/
def specStrictAccepts (j : Json) : Bool :=
  match j with
  | .obj fields =>
    match jlookup fields "message_id", jlookup fields "from",
          jlookup fields "to", jlookup fields "ts" with
    | some (.str mid), some (.str fr), some (.str tov), some (.str ts) =>
      if decide (1 ≤ mid.length) && e164Core asciiDigit fr.data
          && e164Core asciiDigit tov.data && tsCore asciiDigit ts.data then
        match jlookup fields "text" with
        | none => true
        | some .null => true
        | some (.str t) => decide (t.length ≤ 4096)
        | some _ => false
      else false
    | _, _, _, _ => false
  | _ => false

/-- C3 counterexample: Python's `$` also matches just before a final
newline, so the payload with `from = "+1\n"` is accepted by the code's
validator although the claim (exact full-string anchoring, no trailing
characters) rejects it. -/
theorem parsePayload_newline_counterexample :
    (parsePayload (Json.obj [("message_id", Json.str "m1"),
        ("from", Json.str "+1\n"), ("to", Json.str "+2"),
        ("ts", Json.str "2024-01-15T10:30:00Z")])).isSome = true
    ∧ specStrictAccepts (Json.obj [("message_id", Json.str "m1"),
        ("from", Json.str "+1\n"), ("to", Json.str "+2"),
        ("ts", Json.str "2024-01-15T10:30:00Z")]) = false := by decide

lemma pyFullMatch_iff (core : List Char → Bool) (s : String) :
    pyFullMatch core s = true
      ↔ core s.data = true ∨ ∃ cs, s.data = cs ++ ['\n'] ∧ core cs = true := by
  rw [pyFullMatch]
  simp only [Bool.or_eq_true, Bool.and_eq_true, beq_iff_eq]
  apply or_congr Iff.rfl
  constructor
  · rintro ⟨h1, h2⟩
    rcases List.getLast?_eq_some_iff.mp h1 with ⟨l', hl⟩
    rw [hl, List.dropLast_concat] at h2
    exact ⟨l', hl, h2⟩
  · rintro ⟨cs, hcs, h2⟩
    rw [hcs]
    exact ⟨by simp, by rw [List.dropLast_concat]; exact h2⟩

lemma e164Core_iff (dig : Char → Bool) (cs : List Char) :
    e164Core dig cs = true
      ↔ ∃ ds, cs = '+' :: ds ∧ ds ≠ [] ∧ ∀ c ∈ ds, dig c = true := by
  cases cs with
  | nil => simp [e164Core]
  | cons c rest =>
    simp only [e164Core, Bool.and_eq_true, beq_iff_eq, Bool.not_eq_true',
      List.all_eq_true, List.cons.injEq]
    constructor
    · rintro ⟨⟨hc, hne⟩, hdig⟩
      exact ⟨rest, ⟨hc, rfl⟩, by simpa [List.isEmpty_iff] using hne, hdig⟩
    · rintro ⟨ds, ⟨hc, rfl⟩, hne, hdig⟩
      exact ⟨⟨hc, by simpa [List.isEmpty_iff] using hne⟩, hdig⟩

/-- Declarative form of what `re.match(r'^\+\d+$', v)` accepts: a plus
sign, one or more digits, optionally followed by one final newline (the
Python `$` allowance). -/
def SpecE164 (dig : Char → Bool) (v : String) : Prop :=
  ∃ ds rest, v.data = '+' :: (ds ++ rest) ∧ ds ≠ []
    ∧ (∀ c ∈ ds, dig c = true) ∧ (rest = [] ∨ rest = ['\n'])

lemma pyE164_iff (v : String) : pyE164 v = true ↔ SpecE164 isPyDigit v := by
  rw [pyE164, pyFullMatch_iff]
  constructor
  · rintro (h | ⟨cs, hcs, h⟩)
    · rcases (e164Core_iff _ _).mp h with ⟨ds, hds, hne, hdig⟩
      exact ⟨ds, [], by simpa using hds, hne, hdig, Or.inl rfl⟩
    · rcases (e164Core_iff _ _).mp h with ⟨ds, hds, hne, hdig⟩
      refine ⟨ds, ['\n'], ?_, hne, hdig, Or.inr rfl⟩
      rw [hcs, hds]; simp
  · rintro ⟨ds, rest, hv, hne, hdig, hrest⟩
    rcases hrest with rfl | rfl
    · exact Or.inl ((e164Core_iff _ _).mpr ⟨ds, by simpa using hv, hne, hdig⟩)
    · exact Or.inr ⟨'+' :: ds, by simpa using hv,
        (e164Core_iff _ _).mpr ⟨ds, rfl, hne, hdig⟩⟩

lemma eatChar_some_iff (c : Char) (cs rest : List Char) :
    eatChar c cs = some rest ↔ cs = c :: rest := by
  cases cs with
  | nil => simp [eatChar]
  | cons d cs' =>
    by_cases hd : d = c
    · subst hd; simp [eatChar]
    · simp [eatChar, hd, Ne.symm hd]

lemma eatDigits_some_iff (dig : Char → Bool) (n : Nat) (cs rest : List Char) :
    eatDigits dig n cs = some rest
      ↔ ∃ ds, cs = ds ++ rest ∧ ds.length = n ∧ ∀ c ∈ ds, dig c = true := by
  induction n generalizing cs with
  | zero =>
    constructor
    · intro h
      have hcs : cs = rest := by simpa [eatDigits] using h
      exact ⟨[], by simp [hcs], rfl, by simp⟩
    · rintro ⟨ds, hcs, hlen, _⟩
      have hds : ds = [] := List.length_eq_zero.mp hlen
      subst hds
      simpa [eatDigits] using hcs
  | succ n ih =>
    cases cs with
    | nil =>
      constructor
      · intro h; simp [eatDigits] at h
      · rintro ⟨ds, hcs, hlen, _⟩
        rcases List.append_eq_nil.mp hcs.symm with ⟨hds, -⟩
        rw [hds] at hlen; simp at hlen
    | cons c cs' =>
      by_cases hc : dig c = true
      · simp only [eatDigits, hc, if_true, ih]
        constructor
        · rintro ⟨ds', hcs', hlen', hdig'⟩
          refine ⟨c :: ds', by simp [hcs'], by simp [hlen'], ?_⟩
          intro x hx
          rcases List.mem_cons.mp hx with rfl | hx'
          · exact hc
          · exact hdig' x hx'
        · rintro ⟨ds, hcs, hlen, hdig⟩
          cases ds with
          | nil => simp at hlen
          | cons d ds' =>
            have hcd : c = d ∧ cs' = ds' ++ rest := by simpa using hcs
            refine ⟨ds', hcd.2, by simpa using hlen, ?_⟩
            intro x hx
            exact hdig x (List.mem_cons_of_mem _ hx)
      · simp only [eatDigits, hc, if_false]
        constructor
        · intro h; simp at h
        · rintro ⟨ds, hcs, hlen, hdig⟩
          cases ds with
          | nil => simp at hlen
          | cons d ds' =>
            have hcd : c = d ∧ cs' = ds' ++ rest := by simpa using hcs
            exact absurd (hcd.1 ▸ hdig d (List.mem_cons_self _ _)) hc

lemma takeWhile_all_append (p : Char → Bool) (l1 : List Char) (c : Char)
    (l2 : List Char) (h1 : ∀ x ∈ l1, p x = true) (hc : p c = false) :
    (l1 ++ c :: l2).takeWhile p = l1 ∧ (l1 ++ c :: l2).dropWhile p = c :: l2 := by
  induction l1 with
  | nil => simp [List.takeWhile_cons, List.dropWhile_cons, hc]
  | cons x l1' ih =>
    have hx : p x = true := h1 x (List.mem_cons_self _ _)
    have ih' := ih (fun y hy => h1 y (List.mem_cons_of_mem _ hy))
    simp [List.takeWhile_cons, List.dropWhile_cons, hx, ih'.1, ih'.2]

/-- Declarative form of what the ISO-8601 pattern body
`\d{4}-\d{2}-\d{2}T\d{2}:\d{2}:\d{2}(\.\d+)?Z` matches (whole list). -/
def TsShape (dig : Char → Bool) (cs : List Char) : Prop :=
  ∃ d1 d2 d3 d4 d5 d6 frac,
    cs = d1 ++ '-' :: (d2 ++ '-' :: (d3 ++ 'T' :: (d4 ++ ':' :: (d5 ++ ':' ::
      (d6 ++ (frac ++ ['Z']))))))
    ∧ d1.length = 4 ∧ d2.length = 2 ∧ d3.length = 2 ∧ d4.length = 2
    ∧ d5.length = 2 ∧ d6.length = 2
    ∧ (∀ c ∈ d1, dig c = true) ∧ (∀ c ∈ d2, dig c = true)
    ∧ (∀ c ∈ d3, dig c = true) ∧ (∀ c ∈ d4, dig c = true)
    ∧ (∀ c ∈ d5, dig c = true) ∧ (∀ c ∈ d6, dig c = true)
    ∧ (frac = [] ∨ ∃ fs, frac = '.' :: fs ∧ fs ≠ [] ∧ ∀ c ∈ fs, dig c = true)

lemma eatFrac_eq_z (dig : Char → Bool) (hz : dig 'Z' = false) (frac : List Char)
    (hfrac : frac = [] ∨ ∃ fs, frac = '.' :: fs ∧ fs ≠ [] ∧ ∀ c ∈ fs, dig c = true) :
    eatFrac dig (frac ++ ['Z']) = ['Z'] := by
  rcases hfrac with rfl | ⟨fs, rfl, hne, hdig⟩
  · simp [eatFrac]
  · have h := takeWhile_all_append dig fs 'Z' [] hdig hz
    have hfe : (fs ++ ['Z']).takeWhile dig ≠ [] := by rw [h.1]; exact hne
    simp only [List.cons_append, eatFrac]
    rw [if_neg (by simpa [List.isEmpty_iff] using hfe), h.2]

lemma eatFrac_z_inv (dig : Char → Bool) (r : List Char)
    (h : eatFrac dig r = ['Z']) :
    ∃ frac, r = frac ++ ['Z']
      ∧ (frac = [] ∨ ∃ fs, frac = '.' :: fs ∧ fs ≠ [] ∧ ∀ c ∈ fs, dig c = true) := by
  cases r with
  | nil => simp [eatFrac] at h
  | cons c rest =>
    by_cases hc : c = '.'
    · subst hc
      rw [eatFrac] at h
      by_cases he : (rest.takeWhile dig).isEmpty
      · rw [if_pos he] at h
        injection h with h1 h2
        exact absurd h1 (by decide)
      · rw [if_neg he] at h
        refine ⟨'.' :: rest.takeWhile dig, ?_, Or.inr ⟨rest.takeWhile dig,
          rfl, by simpa [List.isEmpty_iff] using he,
          fun x hx => List.mem_takeWhile_imp hx⟩⟩
        have hsplit := List.takeWhile_append_dropWhile (p := dig) (l := rest)
        rw [h] at hsplit
        rw [List.cons_append, hsplit]
    · have hr : eatFrac dig (c :: rest) = c :: rest := by
        cases rest with
        | nil => simp [eatFrac, hc]
        | cons d rest' => simp [eatFrac, hc]
      rw [hr] at h
      exact ⟨[], by simpa using h, Or.inl rfl⟩

lemma eatDigits_exact (dig : Char → Bool) {n : Nat} (ds : List Char)
    (hlen : ds.length = n) (hdig : ∀ c ∈ ds, dig c = true) (rest : List Char) :
    eatDigits dig n (ds ++ rest) = some rest :=
  (eatDigits_some_iff dig n (ds ++ rest) rest).mpr ⟨ds, rfl, hlen, hdig⟩

lemma eatChar_cons (c : Char) (rest : List Char) :
    eatChar c (c :: rest) = some rest := by
  simp [eatChar]

lemma tsCore_iff (dig : Char → Bool) (hz : dig 'Z' = false) (cs : List Char) :
    tsCore dig cs = true ↔ TsShape dig cs := by
  constructor
  · intro h
    rw [tsCore, Option.isSome_iff_exists] at h
    obtain ⟨u, h⟩ := h
    simp only [Option.bind_eq_bind, Option.bind_eq_some] at h
    obtain ⟨r1, h1, r2, h2, r3, h3, r4, h4, r5, h5, r6, h6, r7, h7, r8, h8, r9,
      h9, r10, h10, r11, h11, r12, h12, hfin⟩ := h
    have hr12 : r12 = [] := by
      by_cases he : r12.isEmpty
      · exact List.isEmpty_iff.mp he
      · rw [if_neg he] at hfin; exact absurd hfin (by simp)
    obtain ⟨d1, e1, l1, g1⟩ := (eatDigits_some_iff dig 4 cs r1).mp h1
    have e2 := (eatChar_some_iff '-' r1 r2).mp h2
    obtain ⟨d2, e3, l2, g2⟩ := (eatDigits_some_iff dig 2 r2 r3).mp h3
    have e4 := (eatChar_some_iff '-' r3 r4).mp h4
    obtain ⟨d3, e5, l3, g3⟩ := (eatDigits_some_iff dig 2 r4 r5).mp h5
    have e6 := (eatChar_some_iff 'T' r5 r6).mp h6
    obtain ⟨d4, e7, l4, g4⟩ := (eatDigits_some_iff dig 2 r6 r7).mp h7
    have e8 := (eatChar_some_iff ':' r7 r8).mp h8
    obtain ⟨d5, e9, l5, g5⟩ := (eatDigits_some_iff dig 2 r8 r9).mp h9
    have e10 := (eatChar_some_iff ':' r9 r10).mp h10
    obtain ⟨d6, e11, l6, g6⟩ := (eatDigits_some_iff dig 2 r10 r11).mp h11
    have e12 := (eatChar_some_iff 'Z' _ r12).mp h12
    rw [hr12] at e12
    obtain ⟨frac, hfr, hfrac⟩ := eatFrac_z_inv dig r11 e12
    refine ⟨d1, d2, d3, d4, d5, d6, frac, ?_, l1, l2, l3, l4, l5, l6,
      g1, g2, g3, g4, g5, g6, hfrac⟩
    rw [e1, e2, e3, e4, e5, e6, e7, e8, e9, e10, e11, hfr]
  · rintro ⟨d1, d2, d3, d4, d5, d6, frac, rfl, l1, l2, l3, l4, l5, l6,
      g1, g2, g3, g4, g5, g6, hfrac⟩
    rw [tsCore]
    simp only [Option.bind_eq_bind,
      eatDigits_exact dig d1 l1 g1, Option.some_bind, eatChar_cons,
      eatDigits_exact dig d2 l2 g2, eatDigits_exact dig d3 l3 g3,
      eatDigits_exact dig d4 l4 g4, eatDigits_exact dig d5 l5 g5,
      eatDigits_exact dig d6 l6 g6, eatFrac_eq_z dig hz frac hfrac]
    simp [eatChar]

/-- Declarative form of what `re.match(r'^...Z$', v)` accepts for the
ISO-8601 pattern: the pattern body on all of `v`, optionally followed by
one final newline (the Python `$` allowance). -/
def SpecTs (dig : Char → Bool) (v : String) : Prop :=
  ∃ core rest, v.data = core ++ rest ∧ (rest = [] ∨ rest = ['\n'])
    ∧ TsShape dig core

lemma pyTs_iff (v : String) : pyTs v = true ↔ SpecTs isPyDigit v := by
  have hz : isPyDigit 'Z' = false := by decide
  rw [pyTs, pyFullMatch_iff]
  constructor
  · rintro (h | ⟨cs, hcs, h⟩)
    · exact ⟨v.data, [], by simp, Or.inl rfl, (tsCore_iff _ hz _).mp h⟩
    · exact ⟨cs, ['\n'], hcs, Or.inr rfl, (tsCore_iff _ hz _).mp h⟩
  · rintro ⟨core, rest, hv, hrest, hshape⟩
    rcases hrest with rfl | rfl
    · left
      have hv' : v.data = core := by simpa using hv
      rw [hv']
      exact (tsCore_iff _ hz _).mpr hshape
    · exact Or.inr ⟨core, hv, (tsCore_iff _ hz _).mpr hshape⟩

lemma one_le_length_iff (s : String) : 1 ≤ s.length ↔ s ≠ "" := by
  rw [Nat.one_le_iff_ne_zero]
  constructor
  · intro h he; apply h; rw [he]; rfl
  · intro h hzero
    apply h
    cases s with
    | mk d =>
      have hd : d = [] := List.length_eq_zero.mp hzero
      simp [hd]

/-- What `WebhookPayload.model_validate_json` accepts, stated
declaratively: a JSON object with a non-empty string `message_id`,
`from`/`to` strings matching `^\+\d+$` and `ts` matching the ISO-8601
pattern — both under Python `re` semantics, where `$` also matches before
one final newline and `\d` is any Unicode Nd digit — and `text` absent,
null, or a string of at most 4096 characters. -/
def SpecAccepts (j : Json) : Prop :=
  ∃ fields, j = Json.obj fields
    ∧ (∃ m, jlookup fields "message_id" = some (Json.str m) ∧ m ≠ "")
    ∧ (∃ f, jlookup fields "from" = some (Json.str f) ∧ SpecE164 isPyDigit f)
    ∧ (∃ t, jlookup fields "to" = some (Json.str t) ∧ SpecE164 isPyDigit t)
    ∧ (∃ u, jlookup fields "ts" = some (Json.str u) ∧ SpecTs isPyDigit u)
    ∧ (jlookup fields "text" = none ∨ jlookup fields "text" = some Json.null
        ∨ ∃ tx, jlookup fields "text" = some (Json.str tx) ∧ tx.length ≤ 4096)

/-- C3 (amended): the payload validator accepts a body exactly when it is
a JSON object with non-empty string `message_id`, `from`/`to` matching
`^\+\d+$`, `ts` matching the ISO-8601 pattern — under Python `re`
semantics: anchored, but `$` also accepts one trailing newline and `\d`
means any Unicode decimal digit (category Nd), not only ASCII 0-9 — and
`text` absent, null, or a string of at most 4096 characters. -/
theorem parsePayload_spec (j : Json) :
    (parsePayload j).isSome = true ↔ SpecAccepts j := by
  constructor
  · intro h
    cases j with
    | null => simp [parsePayload] at h
    | bool b => simp [parsePayload] at h
    | num n => simp [parsePayload] at h
    | str s => simp [parsePayload] at h
    | arr xs => simp [parsePayload] at h
    | obj fields =>
      rw [parsePayload] at h
      split at h
      · rename_i mid fr tov ts hm hf ht hts
        split at h
        · rename_i hcond
          simp only [Bool.and_eq_true, decide_eq_true_eq] at hcond
          obtain ⟨⟨⟨hlen, hfr⟩, htov⟩, hts'⟩ := hcond
          refine ⟨fields, rfl, ⟨mid, hm, (one_le_length_iff mid).mp hlen⟩,
            ⟨fr, hf, (pyE164_iff fr).mp hfr⟩,
            ⟨tov, ht, (pyE164_iff tov).mp htov⟩,
            ⟨ts, hts, (pyTs_iff ts).mp hts'⟩, ?_⟩
          split at h
          · rename_i htx; exact Or.inl htx
          · rename_i htx; exact Or.inr (Or.inl htx)
          · rename_i t htx
            split at h
            · rename_i hlen'
              exact Or.inr (Or.inr ⟨t, htx, by simpa using hlen'⟩)
            · simp at h
          · simp at h
        · simp at h
      · simp at h
  · rintro ⟨fields, rfl, ⟨m, hm, hm1⟩, ⟨f, hf, hf1⟩, ⟨t, ht, ht1⟩,
      ⟨u, hu, hu1⟩, htext⟩
    have hcond : (decide (1 ≤ m.length) && pyE164 f && pyE164 t && pyTs u) = true := by
      simp only [Bool.and_eq_true, decide_eq_true_eq]
      exact ⟨⟨⟨(one_le_length_iff m).mpr hm1, (pyE164_iff f).mpr hf1⟩,
        (pyE164_iff t).mpr ht1⟩, (pyTs_iff u).mpr hu1⟩
    rcases htext with he | he | ⟨tx, he, hlen⟩
    · simp [parsePayload, hm, hf, ht, hu, hcond, he]
    · simp [parsePayload, hm, hf, ht, hu, hcond, he]
    · simp [parsePayload, hm, hf, ht, hu, hcond, he, hlen]

/-- `verify_signature` (src/app/main.py lines 73-80): a falsy signature
(absent header or empty string) is rejected immediately, before the HMAC
is computed; otherwise the hex digest of HMAC-SHA256(secret, body) is
compared to the provided signature with `hmac.compare_digest`, whose
result is equality (its constant-time execution is a timing property with
no functional content).  The HMAC itself is a cryptographic primitive from
Python's standard library, so it is abstracted as the function parameter
`hmacHex`, standing for `hmac.new(secret, body, sha256).hexdigest()`
(which always yields lowercase hex). -/
def verify_signature (hmacHex : String → List Nat → String) (secret : String)
    (body : List Nat) (signature : Option String) : Bool :=
  match signature with
  | none => false
  | some s => if s == "" then false else hmacHex secret body == s

/-- Terminal outcome of one POST /webhook request (src/app/main.py
lines 83-168).  `raisedValidationError` is the `raise` on line 126: the
pydantic `ValidationError` propagates out of the endpoint; FastAPI
registers exception handlers only for `HTTPException` and
`RequestValidationError`, so Starlette's outermost error middleware turns
it into a plain 500 Internal Server Error response. -/
inductive Outcome where
  | ok (dup : Bool)
  | invalidSignature
  | raisedValidationError
  | dbError
deriving DecidableEq, Repr

/-- HTTP status the client observes for each outcome: 200 for `ok`, 401
for `invalidSignature`, 500 for `dbError` — and 500 for
`raisedValidationError`, because the re-raised pydantic `ValidationError`
has no registered handler and reaches Starlette's ServerErrorMiddleware. -/
def statusOf : Outcome → Nat
  | .ok _ => 200
  | .invalidSignature => 401
  | .raisedValidationError => 500
  | .dbError => 500

/-- The POST /webhook endpoint (src/app/main.py lines 83-168): read the
raw body, verify the signature FIRST (falsy/invalid → 401, nothing else
happens), then `WebhookPayload.model_validate_json` (JSON parsing
`parseJson` followed by field validation `parsePayload`; on failure the
handler re-raises), then `insert_message`; a failed insert yields the 500
`db_error` path, otherwise 200 with the duplicate flag.  `parseJson`
stands for the JSON text parser (pydantic-core), abstracted as a
parameter. -/
def webhook (hmacHex : String → List Nat → String) (secret : String)
    (parseJson : List Nat → Option Json) (body : List Nat)
    (signature : Option String) (created_at : String) (store : List Row) :
    Outcome × List Row :=
  if verify_signature hmacHex secret body signature then
    match (parseJson body).bind parsePayload with
    | none => (Outcome.raisedValidationError, store)
    | some p =>
      match insert_message store p.message_id p.from_ p.«to» p.ts p.text created_at with
      | (store', success, dup) =>
        if success then (Outcome.ok dup, store') else (Outcome.dbError, store)
  else
    (Outcome.invalidSignature, store)

/-- C4: `verify_signature` returns false on an absent or empty signature
without consulting the HMAC function (the result is the same for every
`hmacHex`), and for a provided non-empty signature it returns true exactly
when the signature equals the hex HMAC digest. -/
theorem verify_signature_spec (hmacHex hmacHex' : String → List Nat → String)
    (secret : String) (body : List Nat) :
    verify_signature hmacHex secret body none = false
    ∧ verify_signature hmacHex secret body (some "") = false
    ∧ verify_signature hmacHex secret body none
        = verify_signature hmacHex' secret body none
    ∧ verify_signature hmacHex secret body (some "")
        = verify_signature hmacHex' secret body (some "")
    ∧ (∀ s : String, s ≠ "" →
        (verify_signature hmacHex secret body (some s) = true
          ↔ hmacHex secret body = s)) := by
  refine ⟨rfl, rfl, rfl, rfl, ?_⟩
  intro s hs
  have hsb : (s == "") = false := by simpa using hs
  simp [verify_signature, hsb]

/-- Witness for C4 at a concrete HMAC function and inputs. -/
theorem verify_signature_spec_witness :
    verify_signature (fun _ _ => "ab") "k" [1] none = false
    ∧ (verify_signature (fun _ _ => "ab") "k" [1] (some "ab") = true
        ↔ ("ab" : String) = "ab") := by
  have h := verify_signature_spec (fun _ _ => "ab") (fun _ _ => "ab") "k" [1]
  exact ⟨h.1, h.2.2.2.2 "ab" (by decide)⟩

/-- C2: the signature check precedes payload parsing: when verification
fails, the handler answers `invalid_signature` (HTTP 401) with the store
unchanged, and the result is the same for EVERY JSON parser — the body is
never parsed (in particular a structurally invalid body still yields 401,
not 422); conversely any outcome other than `invalid_signature` means the
signature check passed. -/
theorem webhook_signature_gate (hmacHex : String → List Nat → String)
    (secret : String) (body : List Nat) (sig : Option String)
    (created : String) (store : List Row) :
    (verify_signature hmacHex secret body sig = false →
      ∀ parseJson, webhook hmacHex secret parseJson body sig created store
          = (Outcome.invalidSignature, store))
    ∧ statusOf Outcome.invalidSignature = 401
    ∧ (∀ parseJson,
        (webhook hmacHex secret parseJson body sig created store).1
            ≠ Outcome.invalidSignature
          → verify_signature hmacHex secret body sig = true) := by
  refine ⟨?_, rfl, ?_⟩
  · intro h parseJson
    simp [webhook, h]
  · intro parseJson hne
    by_cases hv : verify_signature hmacHex secret body sig = true
    · exact hv
    · have hv' : verify_signature hmacHex secret body sig = false := by
        simpa using hv
      exact absurd (by simp [webhook, hv']) hne

/-- Witness for C2: a missing signature short-circuits to 401 for the
parser that rejects everything (and any other). -/
theorem webhook_signature_gate_witness :
    webhook (fun _ _ => "sig") "k" (fun _ => none) [] none "c" []
      = (Outcome.invalidSignature, []) := by
  have h := webhook_signature_gate (fun _ _ => "sig") "k" [] none "c" []
  exact h.1 rfl (fun _ => none)

/-- C5 (code divergence): when the signature verifies but validation
fails, the handler re-raises the pydantic `ValidationError` instead of
returning a response; no row is inserted, but the status the client sees
is 500 (no handler is registered for that exception class), not the 422
the spec and the repo's own tests (`test_webhook_invalid_e164` etc.)
expect. -/
theorem webhook_validation_error_raises (hmacHex : String → List Nat → String)
    (secret : String) (parseJson : List Nat → Option Json) (body : List Nat)
    (sig : Option String) (created : String) (store : List Row)
    (hsig : verify_signature hmacHex secret body sig = true)
    (hparse : (parseJson body).bind parsePayload = none) :
    webhook hmacHex secret parseJson body sig created store
        = (Outcome.raisedValidationError, store)
    ∧ statusOf Outcome.raisedValidationError = 500
    ∧ statusOf Outcome.raisedValidationError ≠ 422 := by
  refine ⟨?_, rfl, by decide⟩
  simp [webhook, hsig, hparse]

/-- Witness for C5: a well-signed request whose `from` field fails E.164
validation ends in the raised-exception outcome with the store unchanged. -/
theorem webhook_validation_error_raises_witness :
    webhook (fun _ _ => "h") "k"
      (fun _ => some (Json.obj [("message_id", Json.str "x"),
        ("from", Json.str "1234"), ("to", Json.str "+1"),
        ("ts", Json.str "2024-01-15T10:30:00Z")])) [] (some "h") "c" []
      = (Outcome.raisedValidationError, [])
    ∧ statusOf Outcome.raisedValidationError = 500 := by
  have h := webhook_validation_error_raises (fun _ _ => "h") "k"
    (fun _ => some (Json.obj [("message_id", Json.str "x"),
      ("from", Json.str "1234"), ("to", Json.str "+1"),
      ("ts", Json.str "2024-01-15T10:30:00Z")])) [] (some "h") "c" []
    (by decide) (by decide)
  exact ⟨h.1, h.2.1⟩

/-- The FastAPI query-parameter constraints of GET /messages
(src/app/main.py lines 171-178): `limit: int = Query(default=50, ge=1,
le=100)`, `offset: int = Query(default=0, ge=0)`. -/
def paramsValid (limit offset : Int) : Bool :=
  decide (1 ≤ limit) && decide (limit ≤ 100) && decide (0 ≤ offset)

/-- The GET /messages endpoint: FastAPI rejects out-of-range `limit` or
`offset` with a 422 structural validation error before the handler body
runs, so the store query is executed only for valid parameters.
`Except.error ()` is the 422 response. -/
def get_messages_endpoint (store : List Row) (limit offset : Int)
    (f s q : Option String) : Except Unit (List Row × Nat) :=
  if paramsValid limit offset then
    Except.ok (get_messages store limit.toNat offset.toNat f s q)
  else
    Except.error ()

/-- C8: out-of-range parameters (limit outside [1,100] or negative
offset) yield the 422 validation error, identically for every store —
the store is never queried; `limit = 50` with a non-negative offset is
accepted. -/
theorem get_messages_endpoint_validates (limit offset : Int)
    (f s q : Option String) (store store' : List Row) :
    (¬(1 ≤ limit ∧ limit ≤ 100 ∧ 0 ≤ offset) →
      get_messages_endpoint store limit offset f s q = Except.error ()
      ∧ get_messages_endpoint store limit offset f s q
          = get_messages_endpoint store' limit offset f s q)
    ∧ (0 ≤ offset →
        ∃ v, get_messages_endpoint store 50 offset f s q = Except.ok v) := by
  constructor
  · intro h
    have hp : paramsValid limit offset = false := by
      rw [Bool.eq_false_iff]
      intro hx
      apply h
      simpa [paramsValid, Bool.and_eq_true, decide_eq_true_eq, and_assoc] using hx
    simp [get_messages_endpoint, hp]
  · intro h
    have hp : paramsValid 50 offset = true := by
      simp only [paramsValid, Bool.and_eq_true, decide_eq_true_eq]
      refine ⟨⟨by norm_num, by norm_num⟩, h⟩
    refine ⟨get_messages store (50 : Int).toNat offset.toNat f s q, ?_⟩
    simp [get_messages_endpoint, hp]

/-- Witness for C8: `limit = 0` is rejected, `limit = 50, offset = 0`
accepted, on the empty store. -/
theorem get_messages_endpoint_validates_witness :
    get_messages_endpoint [] 0 0 none none none = Except.error ()
    ∧ ∃ v, get_messages_endpoint [] 50 0 none none none = Except.ok v := by
  have h := get_messages_endpoint_validates 0 0 none none none [] []
  exact ⟨(h.1 (by omega)).1, h.2 (by omega)⟩

/-- `Config.is_ready` (src/app/config.py lines 16-18):
`bool(self.webhook_secret)` — true exactly when the configured secret is
a non-empty string. -/
def is_ready (secret : String) : Bool := !(secret == "")

/-- The GET /health/ready endpoint (src/app/main.py lines 226-243):
503 "missing webhook secret" when the config is not ready (checked
first), then 503 "database unavailable" when the store health check
fails, else 200 with status "ready".  The pair is (HTTP status,
status/reason string). -/
def health_ready (secret : String) (dbHealthy : Bool) : Nat × String :=
  if !(is_ready secret) then (503, "missing webhook secret")
  else if !dbHealthy then (503, "database unavailable")
  else (200, "ready")

/-- C9: readiness answers 200 "ready" exactly when the secret is
non-empty AND the store health check passes; otherwise it answers 503
with a reason string; with an empty secret the answer is 503 and is the
same whatever the store health check would say — the check is not
consulted. -/
theorem health_ready_spec (secret : String) (db db' : Bool) :
    (health_ready secret db = (200, "ready") ↔ (secret ≠ "" ∧ db = true))
    ∧ ((health_ready secret db).1 = 200
        ∨ ((health_ready secret db).1 = 503
            ∧ (health_ready secret db).2 ≠ "ready"))
    ∧ health_ready "" db = health_ready "" db'
    ∧ (health_ready "" db).1 = 503 := by
  refine ⟨?_, ?_, ?_, ?_⟩
  · by_cases hs : secret = ""
    · subst hs
      cases db <;> simp [health_ready, is_ready]
    · have hsb : (secret == "") = false := by simpa using hs
      cases db <;> simp [health_ready, is_ready, hsb, hs]
  · by_cases hs : secret = ""
    · subst hs
      cases db <;> simp [health_ready, is_ready]
    · have hsb : (secret == "") = false := by simpa using hs
      cases db <;> simp [health_ready, is_ready, hsb]
  · simp [health_ready, is_ready]
  · simp [health_ready, is_ready]

end WebhookService
